import Mathlib

/-!
# Verification of the zfsHeartbeat health-check core

A shallow embedding of the repository's Go sources (`zpool.go`, `main.go`)
into Lean 4, together with theorems settling the frozen claims about the
pool-status parser, the health evaluator and the SMART self-test analyzer.

Conventions of the embedding:
* Go strings are Lean `String`s; a "document" is the list of lines the
  `bufio.Scanner` would produce (scanning is line-oriented in the source).
* Go `int` is embedded as `Int` (no claim exercises 64-bit overflow of the
  error counters or ages).
* Fallible Go code (`error` returns) becomes `Except`/`Option`.
* `fmt.Sscanf` calls are embedded by small explicit scanners that mirror
  the exact format strings of the source (`" pool: %s"`, `" %s %s %d %d %d"`,
  ...): a space run in the format consumes as many input whitespace
  characters as possible and (per the `fmt` scanning rules, unlike C's
  `scanf`) must consume at least one or find the end of the input, a
  literal must match verbatim, `%s` takes a maximal non-empty
  non-whitespace token after skipping whitespace, `%d` an optionally
  signed decimal integer.
* The two regular expressions of `zpool.go` (`diskRe`, `diskMessageRe`) are
  embedded by a tiny executable regex interpreter (`Rx`) whose remainder
  lists are produced in backtracking priority order (greedy, left
  alternative first), matching Go's RE2 leftmost-first match semantics for
  these patterns.
-/

/-! ## Basic string helpers (Go `strings` / `unicode` behaviour) -/

/-- ASCII whitespace as recognized by Go's `unicode.IsSpace` on the
characters that occur in `zpool status` / `smartctl` output. -/
def isWsChar (c : Char) : Bool :=
  c == ' ' || c == '\t' || c == '\n' || c == '\r' || c == '\x0b' || c == '\x0c'

/-- `listPfx n h` is true iff the char list `n` is an initial segment of `h`
(Go `strings.HasPrefix` on the underlying lists). -/
def listPfx : List Char → List Char → Bool
  | [], _ => true
  | _ :: _, [] => false
  | a :: as, b :: bs => a == b && listPfx as bs

/-- Substring containment on char lists (Go `strings.Contains`). -/
def listSub (nee : List Char) : List Char → Bool
  | [] => listPfx nee []
  | c :: t => listPfx nee (c :: t) || listSub nee t

/-- Go `strings.HasPrefix s p`. -/
def strHasPfx (s p : String) : Bool := listPfx p.toList s.toList

/-- Go `strings.Contains s sub`. -/
def strContainsSub (s sub : String) : Bool := listSub sub.toList s.toList

/-- Go `strings.TrimSpace`. -/
def goTrim (s : String) : String :=
  ⟨((s.toList.dropWhile isWsChar).reverse.dropWhile isWsChar).reverse⟩

/-! ## An embedding of the `fmt.Sscanf` calls of `zpool.go` -/

/-- Skip a whitespace run. -/
def listDropWs (cs : List Char) : List Char := cs.dropWhile isWsChar

/-- A space run in an `Sscanf` format: consumes as many whitespace
characters as possible, and must consume at least one or find the end of
the input — otherwise the scan fails (`expected space in input to match
format`). -/
def wsReq (cs : List Char) : Option (List Char) :=
  match cs with
  | [] => some []
  | c :: rest => if isWsChar c then some (listDropWs rest) else none

/-- `%s`: skip whitespace, then take a maximal non-empty run of
non-whitespace characters; fails (Go: `unexpected EOF`) on nothing left. -/
def takeTok (cs : List Char) : Option (String × List Char) :=
  let cs2 := listDropWs cs
  let tok := cs2.takeWhile (fun c => !isWsChar c)
  if tok.isEmpty then none else some (⟨tok⟩, cs2.drop tok.length)

/-- A literal in an `Sscanf` format: must match the input verbatim. -/
def stripLit : List Char → List Char → Option (List Char)
  | [], cs => some cs
  | _ :: _, [] => none
  | a :: ls, c :: cs => if a == c then stripLit ls cs else none

/-- Decimal digit run to a `Nat`. -/
def natOfDigits (cs : List Char) : Nat :=
  cs.foldl (fun acc c => 10 * acc + (c.toNat - '0'.toNat)) 0

/-- Digits parse: maximal non-empty digit run. -/
def digitsOf (cs : List Char) : Option (Nat × List Char) :=
  let ds := cs.takeWhile Char.isDigit
  if ds.isEmpty then none else some (natOfDigits ds, cs.drop ds.length)

/-- `%d`: skip whitespace, optional sign, decimal digits. -/
def scanIntTok (cs : List Char) : Option (Int × List Char) :=
  match listDropWs cs with
  | '-' :: rest => (digitsOf rest).map (fun p => (-(p.1 : Int), p.2))
  | '+' :: rest => (digitsOf rest).map (fun p => ((p.1 : Int), p.2))
  | cs2 => (digitsOf cs2).map (fun p => ((p.1 : Int), p.2))

/-- `fmt.Sscanf(line, " pool: %s", &p.name)` (zpool.go line 144): the
leading format space must consume at least one whitespace character (the
line must be indented), the literal `pool:` matches verbatim, the space
before `%s` must again consume at least one whitespace character, and
`%s` takes the following token. -/
def sscanfPool (line : String) : Option String :=
  match wsReq line.toList with
  | none => none
  | some cs0 =>
    match stripLit "pool:".toList cs0 with
    | none => none
    | some cs1 =>
      match wsReq cs1 with
      | none => none
      | some cs2 => (takeTok cs2).map Prod.fst

/-- `fmt.Sscanf(trimmedLine, "state: %s", &p.state)` (zpool.go line 161):
the format starts with the literal (no leading space), then a mandatory
space run, then `%s`. -/
def sscanfStateLine (trimmedLine : String) : Option String :=
  match stripLit "state:".toList trimmedLine.toList with
  | none => none
  | some cs1 =>
    match wsReq cs1 with
    | none => none
    | some cs2 => (takeTok cs2).map Prod.fst

/-- `fmt.Sscanf(line, " scan: %s", &p.scanStatus)` (zpool.go line 168):
mandatory leading whitespace, literal `scan:`, mandatory whitespace,
then `%s` — which captures only the first whitespace-delimited word of
the scan text. -/
def sscanfScan (line : String) : Option String :=
  match wsReq line.toList with
  | none => none
  | some cs0 =>
    match stripLit "scan:".toList cs0 with
    | none => none
    | some cs1 =>
      match wsReq cs1 with
      | none => none
      | some cs2 => (takeTok cs2).map Prod.fst

/-- `fmt.Sscanf(line, " %s %s %d %d %d", ...)` — the five-field row layout
used for the pool table row (line 179), standard vdev rows (line 199) and
standard disk rows (line 228).  The leading format space must consume at
least one whitespace character (or find the end of the input); the space
runs between the verbs are automatically satisfied because each `%s`/`%d`
token is maximal, so the next character is whitespace or the end of the
input.  Trailing input is ignored by `Sscanf`. -/
def sscanfRow5 (line : String) : Option (String × String × Int × Int × Int) :=
  match wsReq line.toList with
  | none => none
  | some cs0 =>
    match takeTok cs0 with
    | none => none
    | some (t1, cs1) =>
      match takeTok cs1 with
      | none => none
      | some (t2, cs2) =>
        match scanIntTok cs2 with
        | none => none
        | some (n1, cs3) =>
          match scanIntTok cs3 with
          | none => none
          | some (n2, cs4) =>
            match scanIntTok cs4 with
            | none => none
            | some (n3, _) => some (t1, t2, n1, n2, n3)

/-- `fmt.Sscanf(line, " %s", &v.name)` (zpool.go line 204): mandatory
leading whitespace, then a token. -/
def sscanfTok1 (line : String) : Option String :=
  match wsReq line.toList with
  | none => none
  | some cs0 => (takeTok cs0).map Prod.fst

/-- `fmt.Sscanf(line, " %s %s", &disk.name, &disk.state)` (zpool.go
line 232): mandatory leading whitespace, then two tokens. -/
def sscanfTok2 (line : String) : Option (String × String) :=
  match wsReq line.toList with
  | none => none
  | some cs0 =>
    match takeTok cs0 with
    | none => none
    | some (t1, cs1) => (takeTok cs1).map (fun p => (t1, p.1))

/-! ## A small executable regex interpreter for `diskRe`/`diskMessageRe`

Both regexes of `zpool.go` are built from character classes, `+`-repeats
of classes, exact repeats, concatenation and alternation, so a tiny
structural interpreter suffices.  `rxM r cs` returns the list of possible
remainders after matching `r` at the head of `cs`, in backtracking
priority order (greedy repeats first, left alternative first), which is
the order RE2's leftmost-first semantics prefers. -/

inductive Rx where
  | eps : Rx
  | cls (p : Char → Bool) : Rx
  | clsPlus (p : Char → Bool) : Rx
  | clsRep (p : Char → Bool) (n : Nat) : Rx
  | seq (a b : Rx) : Rx
  | alt (a b : Rx) : Rx

/-- Remainders of matching a `+` of a character class, greedy first. -/
def clsPlusM (p : Char → Bool) (cs : List Char) : List (List Char) :=
  let k := (cs.takeWhile p).length
  (List.range k).map (fun i => cs.drop (k - i))

def rxM : Rx → List Char → List (List Char)
  | .eps, cs => [cs]
  | .cls p, [] => let _ := p; []
  | .cls p, c :: cs => if p c then [cs] else []
  | .clsPlus p, cs => clsPlusM p cs
  | .clsRep p n, cs =>
    if n ≤ cs.length && (cs.take n).all p then [cs.drop n] else []
  | .seq a b, cs => (rxM a cs).flatMap (rxM b)
  | .alt a b, cs => rxM a cs ++ rxM b cs

/-- `\w` of RE2: ASCII `[0-9A-Za-z_]`. -/
def wordChar (c : Char) : Bool := c.isAlphanum || c == '_'

/-- `\d`. -/
def digitChar (c : Char) : Bool := c.isDigit

/-- A literal string as a regex. -/
def litRx (s : String) : Rx :=
  s.toList.foldr (fun c r => Rx.seq (Rx.cls (fun x => x == c)) r) Rx.eps

/-- The first alternative of `diskRe`:
`\w{8}-\w{4}-\w{4}-\w{4}-\w{12}\s+` (a UUID-shaped identifier). -/
def diskReUuid : Rx :=
  .seq (.clsRep wordChar 8) (.seq (.cls (fun c => c == '-'))
  (.seq (.clsRep wordChar 4) (.seq (.cls (fun c => c == '-'))
  (.seq (.clsRep wordChar 4) (.seq (.cls (fun c => c == '-'))
  (.seq (.clsRep wordChar 4) (.seq (.cls (fun c => c == '-'))
  (.seq (.clsRep wordChar 12) (.clsPlus isWsChar)))))))))

/-- The second alternative of `diskRe`: `nvme\w+`. -/
def diskReNvme : Rx := .seq (litRx "nvme") (.clsPlus wordChar)

/-- The third alternative of `diskRe`:
`(\w+\s+){2}(\s+\d+){3}\s+\w+` (plain name, state, three counters, word). -/
def diskRePlain : Rx :=
  .seq (.seq (.clsPlus wordChar) (.clsPlus isWsChar))
  (.seq (.seq (.clsPlus wordChar) (.clsPlus isWsChar))
  (.seq (.seq (.clsPlus isWsChar) (.clsPlus digitChar))
  (.seq (.seq (.clsPlus isWsChar) (.clsPlus digitChar))
  (.seq (.seq (.clsPlus isWsChar) (.clsPlus digitChar))
  (.seq (.clsPlus isWsChar) (.clsPlus wordChar))))))

/-- `diskRe = ^\s+(\w{8}-\w{4}-\w{4}-\w{4}-\w{12}\s+|nvme\w+|(\w+\s+){2}(\s+\d+){3}\s+\w+)`
(zpool.go line 111).  `MatchString` with the `^` anchor: a match must start
at position 0; with no `$`, any remainder witnesses a match. -/
def diskReMatch (line : String) : Bool :=
  !(rxM (.seq (.clsPlus isWsChar)
        (.alt diskReUuid (.alt diskReNvme diskRePlain))) line.toList).isEmpty

/-- `(?:\d+\s+){3}` — first alternative of the prefix of `diskMessageRe`. -/
def diskMsgNums : Rx :=
  .seq (.seq (.clsPlus digitChar) (.clsPlus isWsChar))
  (.seq (.seq (.clsPlus digitChar) (.clsPlus isWsChar))
  (.seq (.clsPlus digitChar) (.clsPlus isWsChar)))

/-- `^\w+\s+[A-Z]+\s+` — second alternative of the prefix of
`diskMessageRe` (only admissible at position 0, because of `^`). -/
def diskMsgHead : Rx :=
  .seq (.clsPlus wordChar) (.seq (.clsPlus isWsChar)
  (.seq (.clsPlus Char.isUpper) (.clsPlus isWsChar)))

/-- `diskMessageRe = (?:(?:\d+\s+){3}|^\w+\s+[A-Z]+\s+)(.+)$`
(zpool.go line 112), as used by `FindStringSubmatch`: find the leftmost
match (smallest start position; at a given position the first alternative
is preferred), and return capture group 1, which — being a greedy `(.+)$` —
is the whole non-empty remainder after the prefix.  `atStart` records
whether the current suffix begins at position 0 (for the `^` anchor). -/
def diskMsgFindAux : Bool → List Char → Option String
  | _, [] => none
  | atStart, c :: cs =>
    let here := rxM diskMsgNums (c :: cs) ++
      (if atStart then rxM diskMsgHead (c :: cs) else [])
    match here.find? (fun r => !r.isEmpty) with
    | some r => some ⟨r⟩
    | none => diskMsgFindAux false cs

def diskMsgFind (line : String) : Option String :=
  diskMsgFindAux true line.toList

/-! ## Data model (`zpool.go` lines 10–97)

The Go `vdevDisk` holds a back-pointer `vdev *vdev` to its owning group,
used only to select interpretation rules (`d.vdev.typev`) in `Healthy` and
`String`.  The group's `typev` is fixed when the group is created, before
any of its disks are appended, so the embedding passes the owning group's
`typev` explicitly instead of storing a cyclic reference. -/

inductive vdevType where
  | vdevTypeNone : vdevType
  | vdevTypeRaidz : vdevType
  | vdevTypeSpare : vdevType
deriving DecidableEq, Repr

structure vdevDisk where
  name : String
  state : String
  read : Int
  write : Int
  checksum : Int
  message : String
deriving DecidableEq, Repr

structure vdev where
  name : String
  state : String
  typev : vdevType
  disks : List vdevDisk
  read : Int
  write : Int
  checksum : Int
deriving DecidableEq, Repr

structure pool where
  name : String
  state : String
  status : String
  scanStatus : String
  read : Int
  write : Int
  checksum : Int
  vdevs : List vdev
  errors : String
deriving DecidableEq, Repr

/-- `vdevDisk.Healthy` (zpool.go lines 73–80); `t` is the owning group's
`typev` (the Go code reads it through the `d.vdev` back-pointer). -/
def vdevDisk.Healthy (d : vdevDisk) (t : vdevType) : Bool :=
  match t with
  | .vdevTypeSpare => d.state == "AVAIL"
  | _ => d.state == "ONLINE" && d.read == 0 && d.write == 0 &&
         d.checksum == 0 && d.message == ""

/-- `vdev.Healthy` (zpool.go lines 44–57): the kind-specific structural
part (a `SparePool` group contributes `true`), then sequentially `&&`-ed
with every owned disk's health, which `List.all` computes. -/
def vdev.Healthy (v : vdev) : Bool :=
  (match v.typev with
   | .vdevTypeSpare => true
   | _ => v.state == "ONLINE" && v.read == 0 && v.write == 0 && v.checksum == 0)
  && v.disks.all (fun d => d.Healthy v.typev)

/-- `pool.Health` (zpool.go lines 22–28). -/
def pool.Health (p : pool) : Bool :=
  (p.state == "ONLINE" && p.read == 0 && p.write == 0 && p.checksum == 0 &&
   p.errors == "errors: No known data errors")
  && p.vdevs.all vdev.Healthy

/-- `pool.String` (zpool.go lines 30–32):
`"pool %s - %s (%d|%d|%d): %s"`. -/
def pool.String (p : pool) : String :=
  "pool " ++ p.name ++ " - " ++ p.state ++ " (" ++ toString p.read ++ "|" ++
    toString p.write ++ "|" ++ toString p.checksum ++ "): " ++ p.errors

/-- `vdev.String` (zpool.go lines 59–61): `"vdev %s - %s (%d|%d|%d)"`. -/
def vdev.String (v : vdev) : String :=
  "vdev " ++ v.name ++ " - " ++ v.state ++ " (" ++ toString v.read ++ "|" ++
    toString v.write ++ "|" ++ toString v.checksum ++ ")"

/-- `vdevDisk.String` (zpool.go lines 82–89); `t` is the owning group's
`typev`. -/
def vdevDisk.String (d : vdevDisk) (t : vdevType) : String :=
  match t with
  | .vdevTypeSpare => "disk " ++ d.name ++ " - " ++ d.state ++ ": " ++ d.message
  | _ => "disk " ++ d.name ++ " - " ++ d.state ++ " (" ++ toString d.read ++
      "|" ++ toString d.write ++ "|" ++ toString d.checksum ++ "): " ++ d.message

/-! ## The health evaluator (`checkPoolStatus`, main.go lines 95–131)

The shelling out to `/sbin/zpool status` and the parse are the function's
first lines; the evaluator proper (lines 106–130) works on the parsed pool
list, and is embedded here as a function of that list.  `evalPools` is the
`errs` slice it accumulates. -/

/-- The scrub-integrity condition of main.go line 122. -/
def scrubFlag (p : pool) : Bool :=
  strContainsSub p.scanStatus "scrub repaired" &&
    !strContainsSub p.scanStatus "with 0 errors"

/-- main.go line 123: `errs = append(errs, "scrub of %s encountered
errors: %s", p.name, p.scanStatus)` — note the source appends the format
string and the two arguments as three separate elements (there is no
`Sprintf` call). -/
def scrubErrs (p : pool) : List String :=
  if scrubFlag p then ["scrub of %s encountered errors: %s", p.name, p.scanStatus]
  else []

/-- The group/disk diagnostics of main.go lines 110–120: the group line is
emitted only if the group is unhealthy; disk lines are emitted for every
unhealthy disk of every group of the (unhealthy) pool. -/
def vdevErrs (v : vdev) : List String :=
  (if v.Healthy then [] else [v.String]) ++
    (v.disks.filter (fun d => !(d.Healthy v.typev))).map (fun d => d.String v.typev)

def vdevErrsAll : List vdev → List String
  | [] => []
  | v :: vs => vdevErrs v ++ vdevErrsAll vs

/-- One pool's contribution to `errs` (main.go lines 108–124). -/
def poolErrs (p : pool) : List String :=
  (if p.Health then [] else p.String :: vdevErrsAll p.vdevs) ++ scrubErrs p

/-- The full `errs` slice over all pools (main.go loop at line 107). -/
def evalPools : List pool → List String
  | [] => []
  | p :: ps => poolErrs p ++ evalPools ps

/-- main.go lines 126–130: a non-empty `errs` becomes one newline-joined
error; otherwise the check passes (`nil`). -/
def checkPoolStatus (ps : List pool) : Option String :=
  match evalPools ps with
  | [] => none
  | errs => some (String.intercalate "\n" errs)

theorem evalPools_append (a b : List pool) :
    evalPools (a ++ b) = evalPools a ++ evalPools b := by
  induction a with
  | nil => rfl
  | cons p ps ih => simp [evalPools, ih]

theorem vdevErrsAll_append (a b : List vdev) :
    vdevErrsAll (a ++ b) = vdevErrsAll a ++ vdevErrsAll b := by
  induction a with
  | nil => rfl
  | cons v vs ih => simp [vdevErrsAll, ih]

/-! ## The pool-status parser (`parsePools`/`parsePoolState`, zpool.go 99–257)

The Go code is a line loop over a `bufio.Scanner` dispatching each line on
an explicit parse state; `parsePoolState` mutates the last pool of the
slice through a pointer and signals a new pool record by its return value.
The embedding makes one step of the machine an explicit function
(`procLine`) from a state, a pool list and a line to either a fatal error
or a new state, new pool list and a count of following lines to skip (the
three `scanner.Scan()` calls of the Scan state).  The two re-dispatches of
the source (Status → Scan on the same line, Disk → Vdev on the same line)
become direct calls of the target state's handler. -/

inductive zpoolParseState where
  | zpoolParseStart : zpoolParseState
  | zpoolParseStatus : zpoolParseState
  | zpoolParseScan : zpoolParseState
  | zpoolParsePool : zpoolParseState
  | zpoolParseVdev : zpoolParseState
  | zpoolParseDisk : zpoolParseState
  | zpoolParseErrors : zpoolParseState
deriving DecidableEq, Repr

/-- The errors `parsePoolState` can return.  `atState st line` stands for
the Go `fmt.Errorf("parse error (%d) %s: '%s'", parseState, err, line)`
(the embedding records the state value and the raw line; the Go format
actually prints the *pointer* `parseState` with `%d`, i.e. an address).
`nameMismatch`/`stateMismatch` are the two `fmt.Errorf` of lines 183 and
186, carrying (got, want).  `nilDeref`/`noVdev` stand for the run-time
panics the Go code would suffer if a state needing a current pool/vdev
were reached without one (unreachable from the initial state). -/
inductive parseFault where
  | atState (st : zpoolParseState) (line : String) : parseFault
  | nameMismatch (got want : String) : parseFault
  | stateMismatch (got want : String) : parseFault
  | nilDeref : parseFault
  | noVdev : parseFault
deriving DecidableEq, Repr

/-- A freshly appended `vdev{}` (Go zero value, zpool.go line 191). -/
def vdevZero : vdev :=
  { name := "", state := "", typev := .vdevTypeNone, disks := [],
    read := 0, write := 0, checksum := 0 }

/-- Apply `f` to the last element of a list (the Go code's mutation of
`pools[len(pools)-1]` / `p.vdevs[len(p.vdevs)-1]` through a pointer). -/
def updLastL {α : Type} (f : α → α) : List α → List α
  | [] => []
  | [a] => [f a]
  | a :: b :: rest => a :: updLastL f (b :: rest)

/-- Result of one dispatch: next state, new pool list, lines to skip. -/
abbrev ProcRes := Except parseFault (zpoolParseState × List pool × Nat)

/-- The `zpoolParseScan` case (zpool.go lines 167–175): set the scan
status (first word only, per the `%s` verb), advance to the Pool state and
skip the three following lines (`config:`, blank, table header). -/
def procScan (pools : List pool) (line : String) : ProcRes :=
  if pools.isEmpty then .error .nilDeref
  else
    match sscanfScan line with
    | none => .error (.atState .zpoolParseScan line)
    | some w => .ok (.zpoolParsePool, updLastL (fun p => { p with scanStatus := w }) pools, 3)

/-- The `zpoolParseVdev` case (zpool.go lines 190–209): a fresh `vdev{}`
is appended, then filled according to which substring the line contains;
a line containing none of `mirror-`/`raidz`/`spares` leaves the zero
value in place and no error is raised. -/
def procVdev (pools : List pool) (line : String) : ProcRes :=
  if pools.isEmpty then .error .nilDeref
  else
    if strContainsSub line "mirror-" || strContainsSub line "raidz" then
      match sscanfRow5 line with
      | none => .error (.atState .zpoolParseVdev line)
      | some (n, s, r, w, c) =>
        .ok (.zpoolParseDisk,
          updLastL (fun p => { p with vdevs := p.vdevs ++
            [{ name := n, state := s, typev := .vdevTypeRaidz, disks := [],
               read := r, write := w, checksum := c }] }) pools, 0)
    else if strContainsSub line "spares" then
      match sscanfTok1 line with
      | none => .error (.atState .zpoolParseVdev line)
      | some n =>
        .ok (.zpoolParseDisk,
          updLastL (fun p => { p with vdevs := p.vdevs ++
            [{ vdevZero with name := n, typev := .vdevTypeSpare }] }) pools, 0)
    else
      .ok (.zpoolParseDisk,
        updLastL (fun p => { p with vdevs := p.vdevs ++ [vdevZero] }) pools, 0)

/-- The `zpoolParseDisk` case (zpool.go lines 210–242). -/
def procDisk (pools : List pool) (line : String) : ProcRes :=
  if !diskReMatch line then
    if (goTrim line).toList.isEmpty then .ok (.zpoolParseErrors, pools, 0)
    else procVdev pools line
  else
    match pools.getLast? with
    | none => .error .nilDeref
    | some p =>
      match p.vdevs.getLast? with
      | none => .error .noVdev
      | some v =>
        let msg := (diskMsgFind line).getD ""
        match v.typev with
        | .vdevTypeRaidz =>
          match sscanfRow5 line with
          | none => .error (.atState .zpoolParseDisk line)
          | some (n, s, r, w, c) =>
            .ok (.zpoolParseDisk,
              updLastL (fun p2 => { p2 with vdevs := updLastL (fun v2 =>
                { v2 with disks := v2.disks ++
                  [{ name := n, state := s, read := r, write := w,
                     checksum := c, message := msg }] }) p2.vdevs }) pools, 0)
        | .vdevTypeSpare =>
          match sscanfTok2 line with
          | none => .error (.atState .zpoolParseDisk line)
          | some (n, s) =>
            .ok (.zpoolParseDisk,
              updLastL (fun p2 => { p2 with vdevs := updLastL (fun v2 =>
                { v2 with disks := v2.disks ++
                  [{ name := n, state := s, read := 0, write := 0,
                     checksum := 0, message := msg }] }) p2.vdevs }) pools, 0)
        | .vdevTypeNone =>
          .ok (.zpoolParseDisk,
            updLastL (fun p2 => { p2 with vdevs := updLastL (fun v2 =>
              { v2 with disks := v2.disks ++
                [{ name := "", state := "", read := 0, write := 0,
                   checksum := 0, message := msg }] }) p2.vdevs }) pools, 0)

/-- One dispatch of `parsePoolState` (zpool.go lines 134–257). -/
def procLine (st : zpoolParseState) (pools : List pool) (line : String) : ProcRes :=
  match st with
  | .zpoolParseStart =>
    match sscanfPool line with
    | none => .error (.atState .zpoolParseStart line)
    | some nm =>
      .ok (.zpoolParseStatus, pools ++
        [{ name := nm, state := "", status := "", scanStatus := "",
           read := 0, write := 0, checksum := 0, vdevs := [], errors := "" }], 0)
  | .zpoolParseStatus =>
    let t := goTrim line
    if strHasPfx t "scan: " then procScan pools line
    else if strHasPfx t "action: " then .ok (.zpoolParseStatus, pools, 0)
    else if strHasPfx t "status: " then
      if pools.isEmpty then .error .nilDeref
      else .ok (.zpoolParseStatus, updLastL (fun p => { p with status := t }) pools, 0)
    else if strHasPfx t "state: " then
      if pools.isEmpty then .error .nilDeref
      else
        match sscanfStateLine t with
        | none => .error (.atState .zpoolParseStatus line)
        | some s => .ok (.zpoolParseStatus, updLastL (fun p => { p with state := s }) pools, 0)
    else
      if pools.isEmpty then .error .nilDeref
      else .ok (.zpoolParseStatus,
        updLastL (fun p => { p with status := p.status ++ " " ++ line }) pools, 0)
  | .zpoolParseScan => procScan pools line
  | .zpoolParsePool =>
    match pools.getLast? with
    | none => .error .nilDeref
    | some p =>
      match sscanfRow5 line with
      | none => .error (.atState .zpoolParsePool line)
      | some (n, s, r, w, c) =>
        if n ≠ p.name then .error (.nameMismatch n p.name)
        else if s ≠ p.state then .error (.stateMismatch s p.state)
        else .ok (.zpoolParseVdev,
          updLastL (fun p2 => { p2 with read := r, write := w, checksum := c }) pools, 0)
  | .zpoolParseVdev => procVdev pools line
  | .zpoolParseDisk => procDisk pools line
  | .zpoolParseErrors =>
    if (goTrim line).toList.isEmpty then .ok (.zpoolParseStart, pools, 0)
    else
      if pools.isEmpty then .error .nilDeref
      else .ok (.zpoolParseErrors,
        updLastL (fun p =>
          if p.errors == "" then { p with errors := line }
          else { p with errors := "\n" ++ line }) pools, 0)

/-- Fuel-indexed driver; `runFrom` supplies fuel `lines.length`, which is
always sufficient because every step consumes at least the current line.
The fuel makes the definition structurally recursive, hence kernel
reducible for the concrete evaluations below. -/
def runFromF (fuel : Nat) (st : zpoolParseState) (pools : List pool)
    (lines : List String) : Except parseFault (List pool) :=
  match fuel, lines with
  | _, [] => .ok pools
  | 0, _ :: _ => .ok pools
  | fuel + 1, line :: rest =>
    match procLine st pools line with
    | .error e => .error e
    | .ok (st2, pools2, skip) => runFromF fuel st2 pools2 (rest.drop skip)

/-- Run the machine from a configuration to end of input. -/
def runFrom (st : zpoolParseState) (pools : List pool) (lines : List String) :
    Except parseFault (List pool) :=
  runFromF lines.length st pools lines

/-- `parsePools` (zpool.go lines 114–132) on the scanner's line list. -/
def parsePools (lines : List String) : Except parseFault (List pool) :=
  runFrom .zpoolParseStart [] lines

theorem runFromF_fuelIrrel (f1 : Nat) : ∀ (f2 : Nat) (st : zpoolParseState)
    (pools : List pool) (lines : List String), lines.length ≤ f1 →
    lines.length ≤ f2 → runFromF f1 st pools lines = runFromF f2 st pools lines := by
  induction f1 with
  | zero =>
    intro f2 st pools lines h1 _
    have : lines = [] := List.eq_nil_of_length_eq_zero (Nat.le_zero.mp h1)
    subst this
    cases f2 <;> rfl
  | succ f1 ih =>
    intro f2 st pools lines h1 h2
    match lines with
    | [] => cases f2 <;> rfl
    | line :: rest =>
      match f2 with
      | 0 => exact absurd h2 (by simp)
      | f2 + 1 =>
        simp only [runFromF]
        match procLine st pools line with
        | .error e => rfl
        | .ok (st2, pools2, skip) =>
          have hd : (rest.drop skip).length ≤ rest.length := by
            simp [List.length_drop]
          exact ih f2 st2 pools2 (rest.drop skip)
            (le_trans hd (Nat.le_of_succ_le_succ h1))
            (le_trans hd (Nat.le_of_succ_le_succ h2))

/-- One step of `runFrom`. -/
theorem runFrom_cons (st : zpoolParseState) (pools : List pool) (line : String)
    (rest : List String) :
    runFrom st pools (line :: rest) =
      match procLine st pools line with
      | .error e => .error e
      | .ok (st2, pools2, skip) => runFrom st2 pools2 (rest.drop skip) := by
  show runFromF (rest.length + 1) st pools (line :: rest) = _
  simp only [runFromF]
  match procLine st pools line with
  | .error e => rfl
  | .ok (st2, pools2, skip) =>
    exact runFromF_fuelIrrel rest.length (rest.drop skip).length st2 pools2
      (rest.drop skip) (by simp [List.length_drop]) le_rfl

theorem updLastL_concat {α : Type} (f : α → α) (l : List α) (a : α) :
    updLastL f (l ++ [a]) = l ++ [f a] := by
  induction l with
  | nil => rfl
  | cons x xs ih =>
    cases xs with
    | nil => rfl
    | cons y ys => simpa [updLastL] using ih

/-! ## The self-test analyzer (`checkSmartStatus`, main.go lines 133–182)

The function shells out to `/sbin/smartctl -l selftest` for each disk of a
fixed list and runs
`smartRe = #\s*\d+\s*.+?\s{2,}(.+?)\s*\w*00%\s*(\d+)`
over the output with `FindAllStringSubmatch`.  The claims about the
analyzer quantify over the per-disk *rows* this extraction yields (capture
1: the outcome text, capture 2: the power-on-hours digits), so the
embedding takes the batch as a list of `(diskName, rows)` pairs — the text
front-end is the regex, the analyzed data are its captures. -/

structure SmartRow where
  outcome : String
  ageStr : String
deriving DecidableEq, Repr

inductive smartFault where
  /-- `fmt.Errorf("smart error: disk %s: %s", disk, latestFail)`
  (main.go line 176). -/
  | smartError (disk desc : String) : smartFault
  /-- `strconv.Atoi` failed (main.go line 162). -/
  | atoiErr (s : String) : smartFault
deriving DecidableEq, Repr

/-- `strconv.Atoi`: optional sign, at least one digit, nothing else;
values beyond the signed 64-bit range are out of range.  (Capture 2 of
`smartRe` is always a plain digit run, so only the digit/overflow path is
reachable from the analyzer.) -/
def goAtoi (s : String) : Except smartFault Int :=
  let core : List Char → Option Nat := fun cs =>
    if !cs.isEmpty && cs.all Char.isDigit then some (natOfDigits cs) else none
  let signed : Option Int :=
    match s.toList with
    | '-' :: rest => (core rest).map (fun n => -(n : Int))
    | '+' :: rest => (core rest).map (fun n => (n : Int))
    | cs => (core cs).map (fun n => (n : Int))
  match signed with
  | none => .error (.atoiErr s)
  | some v =>
    if v < -(2 ^ 63 : Int) || (2 ^ 63 : Int) - 1 < v then .error (.atoiErr s)
    else .ok v

/-- The inner row loop of `checkSmartStatus` (main.go lines 155–173):
`j` is the row index, `fails`/`latestFail` the per-disk accumulators,
`oldest`/`youngest` the cross-disk age trackers (updated from the first
row only).  On an `Atoi` error the Go function returns with the trackers
as they stand, which the tuple's tail preserves. -/
def smartRowLoop : List SmartRow → Nat → Nat → String → Int → Int →
    Option smartFault × Nat × String × Int × Int
  | [], _, fails, latestFail, oldest, youngest =>
    (none, fails, latestFail, oldest, youngest)
  | r :: rest, j, fails, latestFail, oldest, youngest =>
    let fails2 := if r.outcome ≠ "Completed without error" then fails + 1 else fails
    let latestFail2 := if r.outcome ≠ "Completed without error" then r.outcome else latestFail
    match goAtoi r.ageStr with
    | .error e => (some e, fails2, latestFail2, oldest, youngest)
    | .ok age =>
      let oldest2 := if j = 0 ∧ age > oldest then age else oldest
      let youngest2 := if j = 0 ∧ age < youngest then age else youngest
      smartRowLoop rest (j + 1) fails2 latestFail2 oldest2 youngest2

/-- The 5% threshold test of main.go line 175:
`float32(fails)/float32(len(matches)) >= smartThreshold` with
`smartThreshold = 0.05`.  For `total = 0` the quotient is `0/0 = NaN` and
the comparison is false; for the realistic row counts of a self-test log
(far below 2^24) the `float32` comparison holds exactly when the rational
`fails/total ≥ 1/20` does, i.e. `20 * fails ≥ total`.  (The true quotient
differs from 1/20 by at least `1/(20*total)`, many orders of magnitude
above the rounding error of the single division, and at exactly 1/20 the
rounded quotient equals `float32(0.05)` itself.) -/
def smartBreach (fails total : Nat) : Bool :=
  total != 0 && 20 * fails ≥ total

/-- The per-disk loop of `checkSmartStatus` (main.go lines 145–179),
threading the `oldest`/`youngest` named returns. -/
def checkSmartGo : List (String × List SmartRow) → Int → Int →
    Option smartFault × Int × Int
  | [], oldest, youngest => (none, oldest, youngest)
  | (disk, rows) :: rest, oldest, youngest =>
    match smartRowLoop rows 0 0 "" oldest youngest with
    | (some e, _, _, o2, y2) => (some e, o2, y2)
    | (none, fails, latestFail, o2, y2) =>
      if smartBreach fails rows.length then (some (.smartError disk latestFail), o2, y2)
      else checkSmartGo rest o2 y2

/-- `checkSmartStatus` from the extracted rows: `oldest` starts at the
zero value 0, `youngest` at `math.MaxInt32` (main.go line 134).  In the
source the disk list is the fixed `sda`…`sdf`; the batch is a parameter
here so the claims can quantify over it. -/
def checkSmartStatus (batch : List (String × List SmartRow)) :
    Option smartFault × Int × Int :=
  checkSmartGo batch 0 2147483647

/-! Spec-side helpers, used to compare the analyzer against the
specification's wording. -/

/-- Modelled from the spec: "the most recent failing outcome's
description" — the first failing row in the log's descending
chronological (listed) order. -/
def specMostRecentFailure (rows : List SmartRow) : Option String :=
  (rows.find? (fun r => r.outcome ≠ "Completed without error")).map (·.outcome)

/-- The description the code actually keeps: the outcome of the last
failing row in listed order. -/
def lastFailureDesc (rows : List SmartRow) : Option String :=
  ((rows.filter (fun r => r.outcome ≠ "Completed without error")).getLast?).map (·.outcome)

/-- The number of failing rows. -/
def failCount (rows : List SmartRow) : Nat :=
  (rows.filter (fun r => r.outcome ≠ "Completed without error")).length

/-- Every row's age parses (no `Atoi` error). -/
def rowsOk (rows : List SmartRow) : Bool :=
  rows.all (fun r => (goAtoi r.ageStr).toOption.isSome)

/-- The first-row ages of a batch, in disk order (spec: "each disk's
first (most recent) parsed row"). -/
def firstAges (batch : List (String × List SmartRow)) : List Int :=
  batch.filterMap (fun dk => dk.2.head?.bind (fun r => (goAtoi r.ageStr).toOption))

/-! ## Evaluator lemmas -/

theorem all_eq_false_of_mem {α : Type} {l : List α} {f : α → Bool} {a : α}
    (ha : a ∈ l) (hf : f a = false) : l.all f = false := by
  cases h : l.all f
  · rfl
  · exact absurd (List.all_eq_true.mp h a ha) (by simp [hf])

theorem vdev_healthy_disks {v : vdev} (h : v.Healthy = true) :
    ∀ d ∈ v.disks, d.Healthy v.typev = true := by
  have := (Bool.and_eq_true _ _).mp h
  exact List.all_eq_true.mp this.2

theorem vdev_unhealthy_of_disk {v : vdev} {d : vdevDisk} (hd : d ∈ v.disks)
    (h : d.Healthy v.typev = false) : v.Healthy = false := by
  unfold vdev.Healthy
  rw [all_eq_false_of_mem hd h, Bool.and_false]

theorem pool_health_false_of_vdev {p : pool} {v : vdev} (hv : v ∈ p.vdevs)
    (h : v.Healthy = false) : p.Health = false := by
  unfold pool.Health
  rw [all_eq_false_of_mem hv h, Bool.and_false]

theorem vdevErrs_of_healthy {v : vdev} (h : v.Healthy = true) : vdevErrs v = [] := by
  unfold vdevErrs
  rw [h, List.filter_eq_nil_iff.mpr (by
    intro d hd
    simp [vdev_healthy_disks h d hd])]
  simp

theorem vdevErrsAll_of_healthy {l : List vdev} (h : ∀ v ∈ l, v.Healthy = true) :
    vdevErrsAll l = [] := by
  induction l with
  | nil => rfl
  | cons v vs ih =>
    simp only [vdevErrsAll]
    rw [vdevErrs_of_healthy (h v (by simp)), ih (fun u hu => h u (by simp [hu]))]
    rfl

theorem poolErrs_of_healthy {p : pool} (h : p.Health = true)
    (hs : scrubFlag p = false) : poolErrs p = [] := by
  simp [poolErrs, scrubErrs, h, hs]

theorem evalPools_of_healthy {l : List pool}
    (h : ∀ q ∈ l, q.Health = true ∧ scrubFlag q = false) : evalPools l = [] := by
  induction l with
  | nil => rfl
  | cons p ps ih =>
    simp only [evalPools]
    rw [poolErrs_of_healthy (h p (by simp)).1 (h p (by simp)).2,
      ih (fun q hq => h q (by simp [hq]))]
    rfl

theorem mem_vdevErrsAll {l : List vdev} {v : vdev} {x : String} (hv : v ∈ l)
    (hx : x ∈ vdevErrs v) : x ∈ vdevErrsAll l := by
  induction l with
  | nil => exact absurd hv (by simp)
  | cons u us ih =>
    simp only [vdevErrsAll, List.mem_append]
    rcases List.mem_cons.mp hv with h | h
    · exact Or.inl (h ▸ hx)
    · exact Or.inr (ih h)

theorem mem_evalPools {l : List pool} {p : pool} {x : String} (hp : p ∈ l)
    (hx : x ∈ poolErrs p) : x ∈ evalPools l := by
  induction l with
  | nil => exact absurd hp (by simp)
  | cons q qs ih =>
    simp only [evalPools, List.mem_append]
    rcases List.mem_cons.mp hp with h | h
    · exact Or.inl (h ▸ hx)
    · exact Or.inr (ih h)

/-! ## Claim C1 — SparePool group health -/

/-- A concrete unavailable spare disk (the shape of the repository's
`zpoolSample5.txt` regression test). -/
def spareDiskEx : vdevDisk :=
  { name := "f9aeb0c4-a208-4118-a5e3-0d01bfb36743", state := "UNAVAIL",
    read := 0, write := 0, checksum := 0, message := "" }

/-- A concrete spare group holding one unavailable spare disk. -/
def spareVdevEx : vdev :=
  { name := "spares", state := "", typev := .vdevTypeSpare,
    disks := [spareDiskEx], read := 0, write := 0, checksum := 0 }

/-- A pool owning the spare group of `spareVdevEx`. -/
def sparePoolEx : pool :=
  { name := "primarySafe", state := "ONLINE", status := "", scanStatus := "",
    read := 0, write := 0, checksum := 0, vdevs := [spareVdevEx],
    errors := "errors: No known data errors" }

/-- C1 counterexample: a `SparePool` group's `Healthy` predicate is *not*
true regardless of its disks' health — with one UNAVAIL spare disk the
group-level predicate returns `false` (the structural spare case yields
`true`, but `vdev.Healthy` still conjoins every disk's health). -/
theorem c1_spare_group_counterexample :
    spareVdevEx.typev = vdevType.vdevTypeSpare ∧ spareVdevEx.Healthy = false := by
  constructor
  · rfl
  · decide

/-- C1 (amended): a `SparePool` group's *structural* contribution to its
health flag is unconditionally `true` (its state and counters are
ignored), so its `Healthy` predicate equals the conjunction of its disks'
health; and an unhealthy spare disk still surfaces as a disk-level
diagnostic line in the evaluator's output. -/
theorem c1_spare_group_amended :
    (∀ v : vdev, v.typev = vdevType.vdevTypeSpare →
      v.Healthy = v.disks.all (fun d => d.Healthy v.typev))
    ∧ (∀ (ps : List pool) (p : pool) (v : vdev) (d : vdevDisk),
        p ∈ ps → v ∈ p.vdevs → d ∈ v.disks →
        v.typev = vdevType.vdevTypeSpare → d.Healthy v.typev = false →
        d.String v.typev ∈ evalPools ps) := by
  constructor
  · intro v hv
    unfold vdev.Healthy
    rw [hv]
    simp
  · intro ps p v d hp hv hd htype hunh
    have hvH : v.Healthy = false := vdev_unhealthy_of_disk hd hunh
    have hpH : p.Health = false := pool_health_false_of_vdev hv hvH
    apply mem_evalPools hp
    have hx : d.String v.typev ∈ vdevErrs v := by
      unfold vdevErrs
      apply List.mem_append.mpr
      refine Or.inr (List.mem_map.mpr ⟨d, List.mem_filter.mpr ⟨hd, by simp [hunh]⟩, rfl⟩)
    unfold poolErrs
    rw [hpH]
    simp only [Bool.false_eq_true, if_false, List.cons_append, List.mem_cons]
    exact Or.inr (List.mem_append.mpr (Or.inl (mem_vdevErrsAll hv hx)))

/-- C1 witness for the amended theorem. -/
theorem c1_spare_group_amended_witness :
    spareVdevEx.Healthy =
      spareVdevEx.disks.all (fun d => d.Healthy spareVdevEx.typev)
    ∧ spareDiskEx.String spareVdevEx.typev ∈ evalPools [sparePoolEx] := by
  constructor
  · exact c1_spare_group_amended.1 spareVdevEx rfl
  · exact c1_spare_group_amended.2 [sparePoolEx] sparePoolEx spareVdevEx
      spareDiskEx (by decide) (by decide) (by decide) rfl (by decide)

/-! ## Claim C2 — scrub-integrity fault -/

/-- C2: for every pool whose scan-status text contains "scrub repaired"
but not "with 0 errors", the health check reports a fault: the `errs`
payload contains the scrub entries (the literal format string, the pool's
name and its scan status are appended as three elements at main.go line
123) and the verdict is not healthy — independently of any structural
health predicate. -/
theorem c2_scrub_fault (ps : List pool) (p : pool) (hp : p ∈ ps)
    (hs : scrubFlag p = true) :
    "scrub of %s encountered errors: %s" ∈ evalPools ps
    ∧ p.name ∈ evalPools ps
    ∧ p.scanStatus ∈ evalPools ps
    ∧ checkPoolStatus ps ≠ none := by
  have hmem : ∀ x ∈ scrubErrs p, x ∈ evalPools ps := by
    intro x hx
    apply mem_evalPools hp
    unfold poolErrs
    exact List.mem_append.mpr (Or.inr hx)
  have h1 : "scrub of %s encountered errors: %s" ∈ evalPools ps :=
    hmem _ (by simp [scrubErrs, hs])
  refine ⟨h1, hmem _ (by simp [scrubErrs, hs]), hmem _ (by simp [scrubErrs, hs]), ?_⟩
  cases h : evalPools ps with
  | nil => rw [h] at h1; exact absurd h1 (by simp)
  | cons a l => simp [checkPoolStatus, h]

/-- C2 witness: a structurally healthy pool whose scan text records a
scrub that repaired data without "with 0 errors". -/
def scrubPoolEx : pool :=
  { name := "primarySafe", state := "ONLINE", status := "",
    scanStatus := "scrub repaired 16K with 2 errors", read := 0, write := 0,
    checksum := 0, vdevs := [], errors := "errors: No known data errors" }

theorem c2_scrub_fault_witness :
    scrubPoolEx.Health = true
    ∧ "scrub of %s encountered errors: %s" ∈ evalPools [scrubPoolEx]
    ∧ "primarySafe" ∈ evalPools [scrubPoolEx]
    ∧ "scrub repaired 16K with 2 errors" ∈ evalPools [scrubPoolEx]
    ∧ checkPoolStatus [scrubPoolEx] ≠ none := by
  have h := c2_scrub_fault [scrubPoolEx] scrubPoolEx (by decide) (by decide)
  exact ⟨by decide, h.1, h.2.1, h.2.2.1, h.2.2.2⟩

/-! ## Claim C8 — diagnostics for a single OFFLINE disk -/

/-- C8: in a parsed document whose pools are all healthy (and scrub-clean)
except that exactly one disk, inside an otherwise-healthy
standard-redundancy group of an otherwise-healthy pool, has state OFFLINE,
the evaluator reports unhealthy with exactly the pool summary line, then
the owning group's summary line, then that one disk's summary line, in
that order, and nothing else. -/
theorem c8_offline_disk_diagnostics
    (ps1 ps2 : List pool) (p : pool) (gs1 gs2 : List vdev) (g : vdev)
    (ds1 ds2 : List vdevDisk) (d : vdevDisk)
    (hctx : ∀ q ∈ ps1 ++ ps2, q.Health = true ∧ scrubFlag q = false)
    (hpv : p.vdevs = gs1 ++ g :: gs2)
    (hgd2 : g.disks = ds1 ++ d :: ds2)
    (hgt : g.typev = vdevType.vdevTypeRaidz)
    (hgs1 : ∀ v ∈ gs1, v.Healthy = true) (hgs2 : ∀ v ∈ gs2, v.Healthy = true)
    (hds1 : ∀ x ∈ ds1, x.Healthy g.typev = true)
    (hds2 : ∀ x ∈ ds2, x.Healthy g.typev = true)
    (hd : d.state = "OFFLINE")
    (hscrub : scrubFlag p = false) :
    evalPools (ps1 ++ p :: ps2) = [p.String, g.String, d.String g.typev]
    ∧ checkPoolStatus (ps1 ++ p :: ps2) =
        some (String.intercalate "\n" [p.String, g.String, d.String g.typev]) := by
  have hdH : d.Healthy g.typev = false := by
    rw [hgt]
    simp [vdevDisk.Healthy, hd]
  have hgH : g.Healthy = false :=
    vdev_unhealthy_of_disk (by rw [hgd2]; simp) hdH
  have hpH : p.Health = false :=
    pool_health_false_of_vdev (by rw [hpv]; simp) hgH
  have hge : vdevErrs g = [g.String, d.String g.typev] := by
    unfold vdevErrs
    rw [hgH, hgd2]
    have hf1 : ds1.filter (fun x => !(x.Healthy g.typev)) = [] :=
      List.filter_eq_nil_iff.mpr (fun x hx => by simp [hds1 x hx])
    have hf2 : ds2.filter (fun x => !(x.Healthy g.typev)) = [] :=
      List.filter_eq_nil_iff.mpr (fun x hx => by simp [hds2 x hx])
    rw [List.filter_append, hf1, List.filter_cons]
    simp [hdH, hf2]
  have hva : vdevErrsAll p.vdevs = [g.String, d.String g.typev] := by
    rw [hpv, vdevErrsAll_append]
    rw [vdevErrsAll_of_healthy hgs1]
    show vdevErrsAll (g :: gs2) = _
    unfold vdevErrsAll
    rw [hge, vdevErrsAll_of_healthy hgs2]
    rfl
  have hpe : poolErrs p = [p.String, g.String, d.String g.typev] := by
    unfold poolErrs scrubErrs
    rw [hpH, hscrub, hva]
    simp
  have h1 : evalPools (ps1 ++ p :: ps2) = [p.String, g.String, d.String g.typev] := by
    rw [evalPools_append,
      evalPools_of_healthy (fun q hq => hctx q (List.mem_append.mpr (Or.inl hq)))]
    show evalPools (p :: ps2) = _
    unfold evalPools
    rw [hpe,
      evalPools_of_healthy (fun q hq => hctx q (List.mem_append.mpr (Or.inr hq)))]
    rfl
  exact ⟨h1, by rw [checkPoolStatus, h1]⟩

/-- Concrete instances for the C8 witness: one OFFLINE disk inside an
otherwise-healthy raidz group of an otherwise-healthy pool. -/
def onlineDiskEx : vdevDisk :=
  { name := "e43d41b6-adcc-11e5-b06a-d43d7ef79ff1", state := "ONLINE",
    read := 0, write := 0, checksum := 0, message := "" }

def offlineDiskEx : vdevDisk :=
  { name := "e43d41b6-adcc-11e5-b06a-d43d7ef79ff0", state := "OFFLINE",
    read := 0, write := 0, checksum := 0, message := "" }

def raidzVdevEx : vdev :=
  { name := "raidz2-0", state := "ONLINE", typev := .vdevTypeRaidz,
    disks := [onlineDiskEx, offlineDiskEx], read := 0, write := 0, checksum := 0 }

def offlinePoolEx : pool :=
  { name := "primarySafe", state := "ONLINE", status := "", scanStatus := "",
    read := 0, write := 0, checksum := 0, vdevs := [raidzVdevEx],
    errors := "errors: No known data errors" }

/-- C8 witness (this is the scenario of the repository's
`zpoolSample2.txt` regression test, whose expected message is exactly the
three summary lines joined by newlines). -/
theorem c8_offline_disk_diagnostics_witness :
    evalPools [offlinePoolEx] =
      [offlinePoolEx.String, raidzVdevEx.String,
        offlineDiskEx.String raidzVdevEx.typev]
    ∧ checkPoolStatus [offlinePoolEx] =
        some ("pool primarySafe - ONLINE (0|0|0): errors: No known data errors"
          ++ "\n" ++ "vdev raidz2-0 - ONLINE (0|0|0)"
          ++ "\n" ++ "disk e43d41b6-adcc-11e5-b06a-d43d7ef79ff0 - OFFLINE (0|0|0): ") := by
  have h := c8_offline_disk_diagnostics [] [] offlinePoolEx [] [] raidzVdevEx
    [onlineDiskEx] [] offlineDiskEx (by simp) rfl rfl rfl (by simp) (by simp)
    (by intro x hx; simp only [List.mem_singleton] at hx; subst hx; decide)
    (by simp) rfl (by decide)
  simp only [List.nil_append] at h
  refine ⟨h.1, ?_⟩
  rw [h.2]
  rfl

/-! ## Claim C6 — summary/header name or state mismatch -/

theorem getLast?_concat' {α : Type} (l : List α) (a : α) :
    (l ++ [a]).getLast? = some a := by
  induction l with
  | nil => rfl
  | cons x xs ih =>
    rw [List.cons_append]
    cases h : xs ++ [a] with
    | nil => exact absurd h (by simp)
    | cons y ys => rw [List.getLast?_cons_cons, ← h, ih]

theorem concat_isEmpty_false {α : Type} (l : List α) (a : α) :
    (l ++ [a]).isEmpty = false := by
  cases h : l ++ [a] with
  | nil => exact absurd h (by simp)
  | cons x xs => rfl

/-- C6: whenever the machine is in the Pool-header-confirm state (with
`p` the pool opened by the preceding `pool:`/`state:` lines) and the
device-table header row parses to a name or state different from the
pool's recorded ones, the run fails with the corresponding mismatch error
(zpool.go lines 182–187) and therefore yields no pool list, whatever the
remaining input is. -/
theorem c6_header_mismatch (ps : List pool) (p : pool) (line : String)
    (rest : List String) (n s : String) (r w c : Int)
    (h1 : sscanfRow5 line = some (n, s, r, w, c))
    (h2 : n ≠ p.name ∨ s ≠ p.state) :
    runFrom .zpoolParsePool (ps ++ [p]) (line :: rest) =
      .error (if n = p.name then .stateMismatch s p.state
              else .nameMismatch n p.name) := by
  rw [runFrom_cons]
  show (match procLine .zpoolParsePool (ps ++ [p]) line with
        | .error e => (.error e : Except parseFault (List pool))
        | .ok (st2, pools2, skip) => runFrom st2 pools2 (rest.drop skip)) = _
  unfold procLine
  rw [getLast?_concat', h1]
  by_cases hn : n = p.name
  · have hs : s ≠ p.state := h2.resolve_left (by simp [hn])
    simp [hn, hs]
  · simp [hn]

/-- Pool record for the C6 witness. -/
def mismatchPoolEx : pool :=
  { name := "tank", state := "ONLINE", status := "", scanStatus := "none",
    read := 0, write := 0, checksum := 0, vdevs := [], errors := "" }

/-- C6 witness: an (indented) header row naming `tank2` under a pool
opened as `tank` is rejected with the name-mismatch error. -/
theorem c6_header_mismatch_witness :
    runFrom .zpoolParsePool [mismatchPoolEx] ["\ttank2 ONLINE 0 0 0"] =
      .error (.nameMismatch "tank2" "tank") := by
  have h := c6_header_mismatch [] mismatchPoolEx "\ttank2 ONLINE 0 0 0" []
    "tank2" "ONLINE" 0 0 0 (by decide) (Or.inl (by decide))
  rw [if_neg (by decide)] at h
  simpa using h

/-! ## Claim C9 — `action:` lines -/

/-- C9 counterexample: an `action:`-prefixed line is *not* inert at every
parse state — in the Start state it fails the ` pool: %s` layout and
produces a fatal parse error (so the one-line document consisting of an
`action:` line yields a `ParseError`, not an empty pool list). -/
theorem c9_action_counterexample :
    parsePools ["action: restore the pool from backup"] =
      .error (.atState .zpoolParseStart "action: restore the pool from backup") := by
  rfl

theorem listPfx_action_not_scan (l : List Char)
    (h : listPfx "action: ".toList l = true) :
    listPfx "scan: ".toList l = false := by
  have ha : "action: ".toList = 'a' :: "ction: ".toList := rfl
  have hs : "scan: ".toList = 's' :: "can: ".toList := rfl
  rw [ha] at h
  cases l with
  | nil => exact absurd h (by simp [listPfx])
  | cons b bs =>
    have h' : 'a' = b ∧ listPfx "ction: ".toList bs = true := by
      simpa [listPfx] using h
    have hb : b = 'a' := h'.1.symm
    subst hb
    rw [hs]
    simp only [listPfx]
    rw [show ('s' == 'a') = false from rfl, Bool.false_and]

/-- C9 (amended): in the Status state a line whose trimmed text begins
with `action: ` is unconditionally inert — the dispatch returns no error,
produces no record, leaves the pool list and the state unchanged, and the
run continues exactly as if the line were absent (zpool.go lines
156–157).  (In other states an `action:` line receives no special
treatment; see the counterexample.) -/
theorem c9_action_inert_amended (pools : List pool) (line : String)
    (rest : List String)
    (h : strHasPfx (goTrim line) "action: " = true) :
    procLine .zpoolParseStatus pools line = .ok (.zpoolParseStatus, pools, 0)
    ∧ runFrom .zpoolParseStatus pools (line :: rest) =
        runFrom .zpoolParseStatus pools rest := by
  have hscan : strHasPfx (goTrim line) "scan: " = false :=
    listPfx_action_not_scan _ h
  have h1 : procLine .zpoolParseStatus pools line = .ok (.zpoolParseStatus, pools, 0) := by
    simp [procLine, hscan, h]
  refine ⟨h1, ?_⟩
  rw [runFrom_cons, h1]
  rfl

/-- C9 witness for the amended theorem. -/
theorem c9_action_inert_amended_witness :
    procLine .zpoolParseStatus [mismatchPoolEx]
        " action: Restore the file in question if possible." =
      .ok (.zpoolParseStatus, [mismatchPoolEx], 0)
    ∧ runFrom .zpoolParseStatus [mismatchPoolEx]
        [" action: Restore the file in question if possible."] =
        runFrom .zpoolParseStatus [mismatchPoolEx] [] :=
  c9_action_inert_amended [mismatchPoolEx]
    " action: Restore the file in question if possible." [] (by decide)

/-! ## Claim C5 — fatal parse errors in Start/Pool-header-confirm/Group -/

/-- A document whose line in the Group (Vdev) state matches none of the
recognized group shapes (`mirror-`, `raidz`, `spares`). -/
def c5doc : List String :=
  ["  pool: tank", " state: ONLINE", "  scan: none requested",
   "config:", "", "\tNAME STATE READ WRITE CKSUM",
   "\ttank ONLINE 0 0 0", "this line matches no group shape"]

/-- C5 counterexample: the final line of `c5doc` is dispatched in the
Group state and matches none of the recognized group shapes, yet parsing
does *not* fail — it silently appends a zero-valued group of kind
`vdevTypeNone` and returns a pool list (zpool.go lines 194–207 have no
default case, so the `vdev{}` appended at line 191 is kept unfilled and
the state still advances). -/
theorem c5_group_state_counterexample :
    strContainsSub "this line matches no group shape" "mirror-" = false
    ∧ strContainsSub "this line matches no group shape" "raidz" = false
    ∧ strContainsSub "this line matches no group shape" "spares" = false
    ∧ parsePools c5doc =
        .ok [{ name := "tank", state := "ONLINE", status := "",
               scanStatus := "none", read := 0, write := 0, checksum := 0,
               vdevs := [vdevZero], errors := "" }] := by
  refine ⟨by decide, by decide, by decide, ?_⟩
  rfl

/-- C5 (amended): a line failing the expected field layout in the Start
state or the Pool-header-confirm state is a fatal parse error recording
that state and the offending raw line, aborting the run with no pool
list; in the Group state, only a line that matches a recognized group
shape can fail — a line matching none of the shapes is silently accepted,
appending a zero-valued group of kind `vdevTypeNone` and moving to the
Disk state. -/
theorem c5_parse_fatal_amended :
    (∀ (pools : List pool) (line : String) (rest : List String),
       sscanfPool line = none →
       runFrom .zpoolParseStart pools (line :: rest) =
         .error (.atState .zpoolParseStart line))
    ∧ (∀ (ps : List pool) (p : pool) (line : String) (rest : List String),
       sscanfRow5 line = none →
       runFrom .zpoolParsePool (ps ++ [p]) (line :: rest) =
         .error (.atState .zpoolParsePool line))
    ∧ (∀ (ps : List pool) (p : pool) (line : String) (rest : List String),
       strContainsSub line "mirror-" = false →
       strContainsSub line "raidz" = false →
       strContainsSub line "spares" = false →
       runFrom .zpoolParseVdev (ps ++ [p]) (line :: rest) =
         runFrom .zpoolParseDisk
           (ps ++ [{ p with vdevs := p.vdevs ++ [vdevZero] }]) rest) := by
  refine ⟨?_, ?_, ?_⟩
  · intro pools line rest hfail
    rw [runFrom_cons]
    simp [procLine, hfail]
  · intro ps p line rest hfail
    rw [runFrom_cons]
    simp [procLine, getLast?_concat', hfail]
  · intro ps p line rest h1 h2 h3
    rw [runFrom_cons]
    have hp : procLine .zpoolParseVdev (ps ++ [p]) line =
        .ok (.zpoolParseDisk, ps ++ [{ p with vdevs := p.vdevs ++ [vdevZero] }], 0) := by
      show procVdev (ps ++ [p]) line = _
      unfold procVdev
      rw [concat_isEmpty_false, h1, h2, h3]
      simp [updLastL_concat]
    rw [hp]
    rfl

/-- C5 witness for the amended theorem, exercising all three conjuncts at
concrete inputs. -/
theorem c5_parse_fatal_amended_witness :
    runFrom .zpoolParseStart [] ["garbage header"] =
      .error (.atState .zpoolParseStart "garbage header")
    ∧ runFrom .zpoolParsePool [mismatchPoolEx] ["\ttank ONLINE zero 0 0"] =
        .error (.atState .zpoolParsePool "\ttank ONLINE zero 0 0")
    ∧ runFrom .zpoolParseVdev [mismatchPoolEx] ["this line matches no group shape"] =
        runFrom .zpoolParseDisk
          [{ mismatchPoolEx with vdevs := mismatchPoolEx.vdevs ++ [vdevZero] }] [] :=
  ⟨c5_parse_fatal_amended.1 [] "garbage header" [] (by decide),
   c5_parse_fatal_amended.2.1 [] mismatchPoolEx "\ttank ONLINE zero 0 0" [] (by decide),
   c5_parse_fatal_amended.2.2 [] mismatchPoolEx "this line matches no group shape" []
     (by decide) (by decide) (by decide)⟩

/-! ## Claim C4 — error-text accumulation in the Errors state -/

/-- A document whose error trailer spans two non-blank lines. -/
def c4doc : List String :=
  ["  pool: tank", " state: ONLINE", "  scan: none requested",
   "config:", "", "\tNAME STATE READ WRITE CKSUM",
   "\ttank ONLINE 0 0 0", "\t  mirror-0 ONLINE 0 0 0", "",
   "errors: Permanent errors have been detected:", "        /data/file1", ""]

/-- The pool `c4doc` parses to. -/
def c4pool : pool :=
  { name := "tank", state := "ONLINE", status := "", scanStatus := "none",
    read := 0, write := 0, checksum := 0,
    vdevs := [{ name := "mirror-0", state := "ONLINE",
                typev := .vdevTypeRaidz, disks := [],
                read := 0, write := 0, checksum := 0 }],
    errors := "\n        /data/file1" }

/-- C4: evaluating the parser at a document with two non-blank error
lines.  The Errors-state branch for a non-first line is
`p.errors = "\n" + line` (zpool.go line 252) — an assignment, not an
append — so the pool's error text ends up `"\n        /data/file1"`: the
first error line is discarded instead of being kept and separated, and
the final text does not contain it. -/
theorem c4_errors_accumulation :
    parsePools c4doc = .ok [c4pool]
    ∧ c4pool.errors = "\n" ++ "        /data/file1"
    ∧ strContainsSub c4pool.errors "/data/file1" = true
    ∧ strContainsSub c4pool.errors "Permanent errors have been detected:" = false := by
  refine ⟨?_, rfl, by decide, by decide⟩
  rfl

/-! ## Analyzer lemmas -/

/-- Rows at index ≥ 1 never touch the age trackers (the `j == 0` guards
of main.go lines 167 and 170). -/
theorem smartRowLoop_pos (rows : List SmartRow) :
    ∀ (j fails : Nat) (lf : String) (o y : Int),
      (smartRowLoop rows (j + 1) fails lf o y).2.2.2 = (o, y) := by
  induction rows with
  | nil => intro j fails lf o y; rfl
  | cons r rest ih =>
    intro j fails lf o y
    simp only [smartRowLoop]
    cases hg : goAtoi r.ageStr with
    | error e => rfl
    | ok age =>
      have h1 : ¬(j + 1 = 0 ∧ age > o) := fun h => Nat.succ_ne_zero j h.1
      have h2 : ¬(j + 1 = 0 ∧ age < y) := fun h => Nat.succ_ne_zero j h.1
      show (smartRowLoop rest (j + 1 + 1) _ _
        (if j + 1 = 0 ∧ age > o then age else o)
        (if j + 1 = 0 ∧ age < y then age else y)).2.2.2 = (o, y)
      rw [if_neg h1, if_neg h2]
      exact ih (j + 1) _ _ o y

/-- If every row's age parses, the row loop raises no error. -/
theorem smartRowLoop_none (rows : List SmartRow) :
    ∀ (j fails : Nat) (lf : String) (o y : Int), rowsOk rows = true →
      (smartRowLoop rows j fails lf o y).1 = none := by
  induction rows with
  | nil => intro j fails lf o y _; rfl
  | cons r rest ih =>
    intro j fails lf o y hok
    unfold rowsOk at hok
    rw [List.all_cons, Bool.and_eq_true] at hok
    have h1 := hok.1
    have h2 : rowsOk rest = true := hok.2
    simp only [smartRowLoop]
    cases hg : goAtoi r.ageStr with
    | error e => rw [hg] at h1; exact absurd h1 (by simp [Except.toOption])
    | ok age => exact ih _ _ _ _ _ h2

/-- The loop's `fails` counter adds the number of failing rows. -/
theorem smartRowLoop_fails (rows : List SmartRow) :
    ∀ (j fails : Nat) (lf : String) (o y : Int), rowsOk rows = true →
      (smartRowLoop rows j fails lf o y).2.1 = fails + failCount rows := by
  induction rows with
  | nil => intro j fails lf o y _; simp [smartRowLoop, failCount]
  | cons r rest ih =>
    intro j fails lf o y hok
    unfold rowsOk at hok
    rw [List.all_cons, Bool.and_eq_true] at hok
    have h1 := hok.1
    have h2 : rowsOk rest = true := hok.2
    simp only [smartRowLoop]
    cases hg : goAtoi r.ageStr with
    | error e => rw [hg] at h1; exact absurd h1 (by simp [Except.toOption])
    | ok age =>
      show (smartRowLoop rest (j + 1)
        (if r.outcome ≠ "Completed without error" then fails + 1 else fails)
        (if r.outcome ≠ "Completed without error" then r.outcome else lf)
        _ _).2.1 = fails + failCount (r :: rest)
      by_cases hout : r.outcome = "Completed without error"
      · rw [if_neg (by simp [hout]), if_neg (by simp [hout]), ih _ _ _ _ _ h2]
        simp [failCount, List.filter_cons, hout]
      · rw [if_pos (by simp [hout]), if_pos (by simp [hout]), ih _ _ _ _ _ h2]
        have : failCount (r :: rest) = failCount rest + 1 := by
          simp [failCount, List.filter_cons, hout]
        rw [this]
        omega

theorem getLast?_cons_getD {α : Type} : ∀ (l : List α) (a : α),
    (a :: l).getLast? = some (l.getLast?.getD a)
  | [], _ => rfl
  | b :: bs, a => by
    rw [List.getLast?_cons_cons, getLast?_cons_getD bs b]
    rfl

theorem lastFailureDesc_cons (r : SmartRow) (rest : List SmartRow) :
    lastFailureDesc (r :: rest) =
      if r.outcome ≠ "Completed without error"
      then some ((lastFailureDesc rest).getD r.outcome)
      else lastFailureDesc rest := by
  unfold lastFailureDesc
  rw [List.filter_cons]
  by_cases hout : r.outcome = "Completed without error"
  · simp [hout]
  · rw [if_pos (by simp [hout]), getLast?_cons_getD,
      if_pos (show r.outcome ≠ _ from hout)]
    simp [Option.getD_map]

/-- The loop's `latestFail` ends as the outcome of the *last* failing row
(in listed order), defaulting to the incoming accumulator. -/
theorem smartRowLoop_latest (rows : List SmartRow) :
    ∀ (j fails : Nat) (lf : String) (o y : Int), rowsOk rows = true →
      (smartRowLoop rows j fails lf o y).2.2.1 =
        (lastFailureDesc rows).getD lf := by
  induction rows with
  | nil => intro j fails lf o y _; simp [smartRowLoop, lastFailureDesc]
  | cons r rest ih =>
    intro j fails lf o y hok
    unfold rowsOk at hok
    rw [List.all_cons, Bool.and_eq_true] at hok
    have h1 := hok.1
    have h2 : rowsOk rest = true := hok.2
    simp only [smartRowLoop]
    cases hg : goAtoi r.ageStr with
    | error e => rw [hg] at h1; exact absurd h1 (by simp [Except.toOption])
    | ok age =>
      rw [lastFailureDesc_cons]
      show (smartRowLoop rest (j + 1)
        (if r.outcome ≠ "Completed without error" then fails + 1 else fails)
        (if r.outcome ≠ "Completed without error" then r.outcome else lf)
        _ _).2.2.1 = _
      by_cases hout : r.outcome = "Completed without error"
      · have hc : ¬(r.outcome ≠ "Completed without error") := by simp [hout]
        simp only [if_neg hc]
        exact ih _ _ _ _ _ h2
      · have hc : r.outcome ≠ "Completed without error" := hout
        simp only [if_pos hc]
        rw [ih _ _ _ _ _ h2]
        cases lastFailureDesc rest <;> rfl

/-- A successful first row sets the trackers to `max`/`min`. -/
theorem smartRowLoop_first (r : SmartRow) (rest : List SmartRow)
    (fails : Nat) (lf : String) (o y a : Int) (hg : goAtoi r.ageStr = .ok a) :
    (smartRowLoop (r :: rest) 0 fails lf o y).2.2.2 = (max o a, min y a) := by
  simp only [smartRowLoop]
  rw [hg]
  show (smartRowLoop rest (0 + 1)
    (if r.outcome ≠ "Completed without error" then fails + 1 else fails)
    (if r.outcome ≠ "Completed without error" then r.outcome else lf)
    (if True ∧ a > o then a else o) (if True ∧ a < y then a else y)).2.2.2 = _
  have hmax : (if True ∧ a > o then a else o) = max o a := by
    rcases lt_or_le o a with h | h
    · rw [if_pos ⟨trivial, h⟩, max_eq_right h.le]
    · rw [if_neg (fun hc => absurd hc.2 (not_lt.mpr h)), max_eq_left h]
  have hmin : (if True ∧ a < y then a else y) = min y a := by
    rcases lt_or_le a y with h | h
    · rw [if_pos ⟨trivial, h⟩, min_eq_right h.le]
    · rw [if_neg (fun hc => absurd hc.2 (not_lt.mpr h)), min_eq_left h]
  rw [hmax, hmin]
  exact smartRowLoop_pos rest 0 _ _ _ _

/-- If the loop raised no error, the head row's age parsed. -/
theorem smartRowLoop_head_ok (r : SmartRow) (rest : List SmartRow)
    (j fails : Nat) (lf : String) (o y : Int)
    (h : (smartRowLoop (r :: rest) j fails lf o y).1 = none) :
    ∃ a, goAtoi r.ageStr = .ok a := by
  cases hg : goAtoi r.ageStr with
  | error e =>
    exfalso
    simp only [smartRowLoop, hg] at h
    exact Option.some_ne_none _ h
  | ok age => exact ⟨age, rfl⟩

/-- Characterization of a fully successful batch run: the final trackers
are the `max`/`min` folds of the per-disk first-row ages over the initial
accumulators. -/
theorem checkSmartGo_none (batch : List (String × List SmartRow)) :
    ∀ (o y o2 y2 : Int), checkSmartGo batch o y = (none, o2, y2) →
      o2 = List.foldl max o (firstAges batch)
      ∧ y2 = List.foldl min y (firstAges batch) := by
  induction batch with
  | nil =>
    intro o y o2 y2 h
    simp only [checkSmartGo, Prod.mk.injEq] at h
    simp [firstAges, ← h.2.1, ← h.2.2]
  | cons dk rest ih =>
    intro o y o2 y2 h
    obtain ⟨disk, rows⟩ := dk
    simp only [checkSmartGo] at h
    rcases hR : smartRowLoop rows 0 0 "" o y with ⟨e, fl, lf, o1, y1⟩
    rw [hR] at h
    cases e with
    | some f => simp at h
    | none =>
      dsimp only at h
      by_cases hb : smartBreach fl rows.length = true
      · rw [if_pos hb] at h; simp at h
      · rw [if_neg hb] at h
        cases rows with
        | nil =>
          have hfa : firstAges ((disk, ([] : List SmartRow)) :: rest) = firstAges rest := by
            simp [firstAges]
          have hR' : o1 = o ∧ y1 = y := by
            have : (none, 0, "", o, y) =
                ((none : Option smartFault), fl, lf, o1, y1) := by rw [← hR]; rfl
            simp only [Prod.mk.injEq] at this
            exact ⟨this.2.2.2.1.symm, this.2.2.2.2.symm⟩
          rw [hfa, ← hR'.1, ← hR'.2]
          exact ih o1 y1 o2 y2 h
        | cons r rrest =>
          obtain ⟨a, hg⟩ := smartRowLoop_head_ok r rrest 0 0 "" o y (by rw [hR])
          have hoy : (o1, y1) = (max o a, min y a) := by
            rw [← smartRowLoop_first r rrest 0 "" o y a hg, hR]
          have hfa : firstAges ((disk, r :: rrest) :: rest) = a :: firstAges rest := by
            simp [firstAges, hg, Except.toOption]
          simp only [Prod.mk.injEq] at hoy
          rw [hfa, List.foldl_cons, List.foldl_cons, ← hoy.1, ← hoy.2]
          exact ih o1 y1 o2 y2 h

theorem foldlMin_le_init (l : List Int) : ∀ y : Int, List.foldl min y l ≤ y := by
  induction l with
  | nil => intro y; exact le_refl y
  | cons b bs ih => intro y; exact le_trans (ih (min y b)) (min_le_left y b)

theorem foldlMin_le_mem (l : List Int) :
    ∀ (y a : Int), a ∈ l → List.foldl min y l ≤ a := by
  induction l with
  | nil => intro y a ha; exact absurd ha (by simp)
  | cons b bs ih =>
    intro y a ha
    rw [List.foldl_cons]
    rcases List.mem_cons.mp ha with h | h
    · subst h
      exact le_trans (foldlMin_le_init bs (min y a)) (min_le_right y a)
    · exact ih (min y b) a h

theorem init_le_foldlMax (l : List Int) : ∀ o : Int, o ≤ List.foldl max o l := by
  induction l with
  | nil => intro o; exact le_refl o
  | cons b bs ih => intro o; exact le_trans (le_max_left o b) (ih (max o b))

theorem mem_le_foldlMax (l : List Int) :
    ∀ (o a : Int), a ∈ l → a ≤ List.foldl max o l := by
  induction l with
  | nil => intro o a ha; exact absurd ha (by simp)
  | cons b bs ih =>
    intro o a ha
    rw [List.foldl_cons]
    rcases List.mem_cons.mp ha with h | h
    · subst h
      exact le_trans (le_max_right o a) (init_le_foldlMax bs (max o a))
    · exact ih (max o b) a h

/-- A disk whose rows all parse and whose failure count stays below the
threshold only advances the trackers: the run continues with the rest of
the batch. -/
theorem checkSmartGo_pass (n : String) (rows : List SmartRow) (o y : Int)
    (hok : rowsOk rows = true)
    (hnb : smartBreach (failCount rows) rows.length = false) :
    ∃ o2 y2, ∀ rest, checkSmartGo ((n, rows) :: rest) o y = checkSmartGo rest o2 y2 := by
  rcases hR : smartRowLoop rows 0 0 "" o y with ⟨e, fl, lf, o1, y1⟩
  have he : e = none := by
    have h := smartRowLoop_none rows 0 0 "" o y hok
    rw [hR] at h
    exact h
  have hfl : fl = failCount rows := by
    have h := smartRowLoop_fails rows 0 0 "" o y hok
    rw [hR] at h
    simpa using h
  subst he
  refine ⟨o1, y1, fun rest => ?_⟩
  simp only [checkSmartGo]
  rw [hR]
  dsimp only
  rw [hfl, if_neg (by rw [hnb]; exact Bool.false_ne_true)]

/-- A disk whose rows all parse and whose failure count meets the
threshold aborts the whole run with the smart error naming that disk and
the outcome of its *last* failing row, regardless of the remaining
batch. -/
theorem checkSmartGo_breach (n : String) (rows : List SmartRow) (desc : String)
    (hok : rowsOk rows = true)
    (hbr : smartBreach (failCount rows) rows.length = true)
    (hlast : lastFailureDesc rows = some desc) :
    ∀ (rest : List (String × List SmartRow)) (o y : Int),
      (checkSmartGo ((n, rows) :: rest) o y).1 = some (.smartError n desc)
      ∧ checkSmartGo ((n, rows) :: rest) o y = checkSmartGo [(n, rows)] o y := by
  intro rest o y
  rcases hR : smartRowLoop rows 0 0 "" o y with ⟨e, fl, lf, o1, y1⟩
  have he : e = none := by
    have h := smartRowLoop_none rows 0 0 "" o y hok
    rw [hR] at h
    exact h
  have hfl : fl = failCount rows := by
    have h := smartRowLoop_fails rows 0 0 "" o y hok
    rw [hR] at h
    simpa using h
  have hlf : lf = desc := by
    have h := smartRowLoop_latest rows 0 0 "" o y hok
    rw [hR, hlast] at h
    exact h
  subst he
  have hone : ∀ r2 : List (String × List SmartRow),
      checkSmartGo ((n, rows) :: r2) o y = (some (.smartError n desc), o1, y1) := by
    intro r2
    simp only [checkSmartGo]
    rw [hR]
    dsimp only
    rw [hfl, if_pos hbr, hlf]
  rw [hone rest, hone []]
  exact ⟨rfl, rfl⟩

/-- Disks that pass are scanned through, leaving some tracker pair from
which the rest of the batch continues. -/
theorem checkSmartGo_preSkip (pre : List (String × List SmartRow))
    (hpre : ∀ dk ∈ pre, rowsOk dk.2 = true
      ∧ smartBreach (failCount dk.2) dk.2.length = false) :
    ∀ (o y : Int), ∃ o2 y2, ∀ X,
      checkSmartGo (pre ++ X) o y = checkSmartGo X o2 y2 := by
  induction pre with
  | nil => intro o y; exact ⟨o, y, fun X => rfl⟩
  | cons dk pre2 ih =>
    intro o y
    obtain ⟨d1, d2⟩ := dk
    obtain ⟨o1, y1, hstep⟩ := checkSmartGo_pass d1 d2 o y
      (hpre (d1, d2) (by simp)).1 (hpre (d1, d2) (by simp)).2
    obtain ⟨o2, y2, h2⟩ := ih (fun q hq => hpre q (by simp [hq])) o1 y1
    exact ⟨o2, y2, fun X => by rw [List.cons_append, hstep (pre2 ++ X), h2 X]⟩

/-! ## Claim C3 — threshold breach reporting -/

/-- Two failing rows, most recent first. -/
def c3rows : List SmartRow :=
  [{ outcome := "Read failure", ageStr := "100" },
   { outcome := "Electrical failure", ageStr := "90" }]

/-- C3 counterexample: the analyzer does *not* report the most recent
failing outcome.  With two failing rows (most recent "Read failure",
older "Electrical failure"), `latestFail` is overwritten by each failing
row in turn (main.go line 158), so the reported description is that of
the *last* failing row in listed order — the oldest — not the first. -/
theorem c3_threshold_counterexample :
    specMostRecentFailure c3rows = some "Read failure"
    ∧ checkSmartStatus [("sda", c3rows)] =
        (some (.smartError "sda" "Electrical failure"), 100, 100)
    ∧ ("Electrical failure" : String) ≠ "Read failure" := by
  refine ⟨rfl, ?_, by decide⟩
  rfl

/-- C3 (amended): when the disks before `name` all pass (rows parse, no
threshold breach) and `name`'s failure ratio meets the 5% threshold, the
analyzer fails at `name`, reporting its identity together with the
description of the *last* failing row in the log's listed order (the
oldest failure under descending chronological order), and abandons the
remaining disks: the result is the same as if the batch ended at
`name`. -/
theorem c3_threshold_amended (pre : List (String × List SmartRow))
    (name : String) (rows : List SmartRow)
    (post : List (String × List SmartRow)) (desc : String)
    (hpre : ∀ dk ∈ pre, rowsOk dk.2 = true
      ∧ smartBreach (failCount dk.2) dk.2.length = false)
    (hok : rowsOk rows = true)
    (hbr : smartBreach (failCount rows) rows.length = true)
    (hlast : lastFailureDesc rows = some desc) :
    (checkSmartStatus (pre ++ (name, rows) :: post)).1 =
      some (.smartError name desc)
    ∧ checkSmartStatus (pre ++ (name, rows) :: post) =
        checkSmartStatus (pre ++ [(name, rows)]) := by
  obtain ⟨o2, y2, hall⟩ := checkSmartGo_preSkip pre hpre 0 2147483647
  obtain ⟨hb1, hb2⟩ := checkSmartGo_breach name rows desc hok hbr hlast post o2 y2
  constructor
  · show (checkSmartGo (pre ++ (name, rows) :: post) 0 2147483647).1 = _
    rw [hall ((name, rows) :: post)]
    exact hb1
  · show checkSmartGo (pre ++ (name, rows) :: post) 0 2147483647 =
      checkSmartGo (pre ++ [(name, rows)]) 0 2147483647
    rw [hall ((name, rows) :: post), hall [(name, rows)]]
    exact hb2

def c3preBatch : List (String × List SmartRow) :=
  [("sda", [{ outcome := "Completed without error", ageStr := "10" }])]

/-- Three rows for the breaching disk of the C3 witness: one pass and two
distinct failures (ratio 2/3 ≥ 5%). -/
def c3badRows : List SmartRow :=
  [{ outcome := "Completed without error", ageStr := "5" },
   { outcome := "Read failure", ageStr := "4" },
   { outcome := "Electrical failure", ageStr := "3" }]

/-- C3 witness for the amended theorem. -/
theorem c3_threshold_amended_witness :
    (checkSmartStatus (c3preBatch ++ ("sdb", c3badRows) :: [("sdc", [])])).1 =
      some (.smartError "sdb" "Electrical failure")
    ∧ checkSmartStatus (c3preBatch ++ ("sdb", c3badRows) :: [("sdc", [])]) =
        checkSmartStatus (c3preBatch ++ [("sdb", c3badRows)]) :=
  c3_threshold_amended c3preBatch "sdb" c3badRows [("sdc", [])]
    "Electrical failure" (by decide) (by decide) (by decide) (by decide)

/-! ## Claim C7 — age bounds -/

/-- C7: in a successful self-test batch run, the returned `oldest` equals
the maximum (over the initial 0) of the disks' first-row ages, and as soon
as at least one scanned disk contributed a first-row age, `youngest` ≤
`oldest`. -/
theorem c7_age_bounds (batch : List (String × List SmartRow)) (o y : Int)
    (h : checkSmartStatus batch = (none, o, y)) :
    o = List.foldl max 0 (firstAges batch)
    ∧ (firstAges batch ≠ [] → y ≤ o) := by
  have hc := checkSmartGo_none batch 0 2147483647 o y h
  refine ⟨hc.1, fun hne => ?_⟩
  obtain ⟨a, ha⟩ := List.exists_mem_of_ne_nil (firstAges batch) hne
  calc y = List.foldl min 2147483647 (firstAges batch) := hc.2
    _ ≤ a := foldlMin_le_mem _ _ _ ha
    _ ≤ List.foldl max 0 (firstAges batch) := mem_le_foldlMax _ _ _ ha
    _ = o := hc.1.symm

def c7batch : List (String × List SmartRow) :=
  [("sda", [{ outcome := "Completed without error", ageStr := "100" }]),
   ("sdb", [{ outcome := "Completed without error", ageStr := "50" }])]

/-- C7 witness. -/
theorem c7_age_bounds_witness :
    checkSmartStatus c7batch = (none, 100, 50)
    ∧ (100 : Int) = List.foldl max 0 (firstAges c7batch)
    ∧ (50 : Int) ≤ 100 := by
  have h := c7_age_bounds c7batch 100 50 (by rfl)
  exact ⟨by rfl, h.1, h.2 (by decide)⟩

/-! ## Claim C10 — disks with zero parsed rows -/

/-- C10: a disk with zero parsed self-test rows never triggers the
threshold (the `fails/len` comparison is `0/0 = NaN ≥ 0.05`, false, which
`smartBreach _ 0 = false` embeds), contributes nothing to the trackers,
and is simply skipped; a batch in which every disk has zero rows succeeds
with `oldest = 0` and `youngest = 2147483647` (`math.MaxInt32`). -/
theorem c10_empty_rows :
    (∀ fails : Nat, smartBreach fails 0 = false)
    ∧ (∀ (name : String) (rest : List (String × List SmartRow)) (o y : Int),
        checkSmartGo ((name, []) :: rest) o y = checkSmartGo rest o y)
    ∧ (∀ names : List String,
        checkSmartStatus (names.map (fun n => (n, []))) = (none, 0, 2147483647)) := by
  have h2 : ∀ (name : String) (rest : List (String × List SmartRow)) (o y : Int),
      checkSmartGo ((name, []) :: rest) o y = checkSmartGo rest o y :=
    fun _ _ _ _ => rfl
  refine ⟨fun _ => rfl, h2, ?_⟩
  intro names
  induction names with
  | nil => rfl
  | cons n ns ih =>
    show checkSmartGo ((n, []) :: ns.map (fun n => (n, []))) 0 2147483647 = _
    rw [h2]
    exact ih
